import Mathlib

/-!
Verification of the jmux remote-terminal transport core.

This file is a shallow embedding, in Lean 4, of the protocol code of the
jmux repository:

* the ChaCha20-Poly1305 AEAD used through golang.org/x/crypto/chacha20poly1305
  is implemented concretely (RFC 8439), since the round-trip claims are
  properties of that cipher;
* the password/KDF plumbing of internal/tmux/tmux.go (security module) is
  embedded with the external library primitives argon2.IDKey and HMAC-SHA256
  as abstract function parameters: the claims about that code concern which
  salts, nonce halves and password candidates are fed to the primitives, not
  the primitives themselves;
* the framing layer EncryptedConn of internal/jcat/secure.go and the
  handshake / mode negotiation of internal/jcat are embedded over an explicit
  wire modelled as a byte list (bytes are Nat values; the Go code only ever
  puts values below 256 there);
* the sequential control flow of connection setup is embedded as an event
  trace so that claims about the order of protocol steps can be stated.

All definitions are executable; machine integers are Nat with explicit
reductions modulo 2 ^ 32 / 2 ^ 64 where the Go code uses uint32 / uint64.
-/

/-! ## Byte-level helpers -/

/-- Little-endian value of a byte list: first byte is least significant. -/
def leNum : List Nat → Nat
  | [] => 0
  | b :: bs => b + 256 * leNum bs

/-- Little-endian serialization of a value into a fixed number of bytes. -/
def toLE : Nat → Nat → List Nat
  | 0, _ => []
  | n + 1, x => x % 256 :: toLE n (x / 256)

/-- The 4-byte big-endian length header written by EncryptedConn.Write
(secure.go): byte(length shifted right by 24), ..., byte(length). -/
def beEncode (length : Nat) : List Nat :=
  [(length >>> 24) % 256, (length >>> 16) % 256, (length >>> 8) % 256, length % 256]

/-- The big-endian length decoding done by EncryptedConn.Read (secure.go):
int(b0) shifted left 24, or-ed with the lower byte contributions. -/
def beDecode (bytes : List Nat) : Nat :=
  ((((bytes.getD 0 0) <<< 24) ||| ((bytes.getD 1 0) <<< 16)) ||| ((bytes.getD 2 0) <<< 8))
    ||| bytes.getD 3 0

/-! ## ChaCha20 block function (RFC 8439, as used by chacha20poly1305) -/

/-- 32-bit left rotation, as bits.RotateLeft32 on uint32 values. -/
def rotl32 (x n : Nat) : Nat := (((x <<< n) ||| (x >>> (32 - n)))) % 2 ^ 32

/-- ChaCha20 quarter round on four 32-bit words. -/
def qRound (a b c d : Nat) : Nat × Nat × Nat × Nat :=
  let a := (a + b) % 2 ^ 32
  let d := rotl32 (d ^^^ a) 16
  let c := (c + d) % 2 ^ 32
  let b := rotl32 (b ^^^ c) 12
  let a := (a + b) % 2 ^ 32
  let d := rotl32 (d ^^^ a) 8
  let c := (c + d) % 2 ^ 32
  let b := rotl32 (b ^^^ c) 7
  (a, b, c, d)

/-- The 16-word ChaCha20 state. -/
structure ChaChaState where
  x0 : Nat
  x1 : Nat
  x2 : Nat
  x3 : Nat
  x4 : Nat
  x5 : Nat
  x6 : Nat
  x7 : Nat
  x8 : Nat
  x9 : Nat
  x10 : Nat
  x11 : Nat
  x12 : Nat
  x13 : Nat
  x14 : Nat
  x15 : Nat

/-- One ChaCha20 double round: the four column rounds then the four
diagonal rounds. -/
def doubleRound (s : ChaChaState) : ChaChaState :=
  let (a0, a4, a8, a12) := qRound s.x0 s.x4 s.x8 s.x12
  let (a1, a5, a9, a13) := qRound s.x1 s.x5 s.x9 s.x13
  let (a2, a6, a10, a14) := qRound s.x2 s.x6 s.x10 s.x14
  let (a3, a7, a11, a15) := qRound s.x3 s.x7 s.x11 s.x15
  let (b0, b5, b10, b15) := qRound a0 a5 a10 a15
  let (b1, b6, b11, b12) := qRound a1 a6 a11 a12
  let (b2, b7, b8, b13) := qRound a2 a7 a8 a13
  let (b3, b4, b9, b14) := qRound a3 a4 a9 a14
  ⟨b0, b1, b2, b3, b4, b5, b6, b7, b8, b9, b10, b11, b12, b13, b14, b15⟩

/-- Word i (little-endian 32-bit) of a byte list. -/
def wordAt (bytes : List Nat) (i : Nat) : Nat := leNum ((bytes.drop (4 * i)).take 4)

/-- Initial ChaCha20 state for a 32-byte key, 12-byte nonce and a
32-bit block counter. -/
def chachaInit (key nonce : List Nat) (ctr : Nat) : ChaChaState :=
  ⟨0x61707865, 0x3320646e, 0x79622d32, 0x6b206574,
   wordAt key 0, wordAt key 1, wordAt key 2, wordAt key 3,
   wordAt key 4, wordAt key 5, wordAt key 6, wordAt key 7,
   ctr % 2 ^ 32, wordAt nonce 0, wordAt nonce 1, wordAt nonce 2⟩

/-- Componentwise 32-bit addition of two ChaCha20 states. -/
def addState (x y : ChaChaState) : ChaChaState :=
  ⟨(x.x0 + y.x0) % 2 ^ 32, (x.x1 + y.x1) % 2 ^ 32, (x.x2 + y.x2) % 2 ^ 32,
   (x.x3 + y.x3) % 2 ^ 32, (x.x4 + y.x4) % 2 ^ 32, (x.x5 + y.x5) % 2 ^ 32,
   (x.x6 + y.x6) % 2 ^ 32, (x.x7 + y.x7) % 2 ^ 32, (x.x8 + y.x8) % 2 ^ 32,
   (x.x9 + y.x9) % 2 ^ 32, (x.x10 + y.x10) % 2 ^ 32, (x.x11 + y.x11) % 2 ^ 32,
   (x.x12 + y.x12) % 2 ^ 32, (x.x13 + y.x13) % 2 ^ 32, (x.x14 + y.x14) % 2 ^ 32,
   (x.x15 + y.x15) % 2 ^ 32⟩

/-- Little-endian serialization of one 32-bit word. -/
def le4 (w : Nat) : List Nat := [w % 256, w / 2 ^ 8 % 256, w / 2 ^ 16 % 256, w / 2 ^ 24 % 256]

/-- Serialization of a ChaCha20 state into its 64-byte keystream block. -/
def serializeState (s : ChaChaState) : List Nat :=
  le4 s.x0 ++ le4 s.x1 ++ le4 s.x2 ++ le4 s.x3 ++ le4 s.x4 ++ le4 s.x5 ++ le4 s.x6 ++
  le4 s.x7 ++ le4 s.x8 ++ le4 s.x9 ++ le4 s.x10 ++ le4 s.x11 ++ le4 s.x12 ++ le4 s.x13 ++
  le4 s.x14 ++ le4 s.x15

/-- The ChaCha20 block: 10 double rounds, add the initial state, serialize. -/
def chachaBlock (key nonce : List Nat) (ctr : Nat) : List Nat :=
  serializeState (addState (doubleRound^[10] (chachaInit key nonce ctr)) (chachaInit key nonce ctr))

/-- Concatenation of n consecutive keystream blocks starting at counter ctr. -/
def ksBlocks (key nonce : List Nat) (ctr : Nat) : Nat → List Nat
  | 0 => []
  | n + 1 => chachaBlock key nonce ctr ++ ksBlocks key nonce (ctr + 1) n

/-- The first len bytes of ChaCha20 keystream starting at block counter ctr. -/
def chachaKeystream (key nonce : List Nat) (ctr len : Nat) : List Nat :=
  (ksBlocks key nonce ctr ((len + 63) / 64)).take len

/-- ChaCha20 stream encryption: xor the message with the keystream. -/
def chachaXor (key nonce : List Nat) (ctr : Nat) (m : List Nat) : List Nat :=
  List.zipWith (fun a b => a ^^^ b) m (chachaKeystream key nonce ctr m.length)

/-! ## Poly1305 and the AEAD construction (RFC 8439) -/

/-- Poly1305 clamping of the r half of the one-time key. -/
def polyClamp (r : Nat) : Nat := r &&& 0x0ffffffc0ffffffc0ffffffc0fffffff

/-- Split a byte list into chunks of at most 16 bytes. -/
def chunks16 (l : List Nat) : List (List Nat) :=
  match l with
  | [] => []
  | b :: bs => (b :: bs).take 16 :: chunks16 ((b :: bs).drop 16)
termination_by l.length
decreasing_by simp [List.length_drop]; omega

/-- The Poly1305 authenticator of a message under a 32-byte one-time key. -/
def poly1305Tag (pkey msg : List Nat) : List Nat :=
  let r := polyClamp (leNum (pkey.take 16))
  let s := leNum ((pkey.drop 16).take 16)
  let acc := (chunks16 msg).foldl
    (fun acc c => ((acc + (leNum c + 2 ^ (8 * c.length))) * r) % (2 ^ 130 - 5)) 0
  toLE 16 ((acc + s) % 2 ^ 128)

/-- Zero padding length to the next multiple of 16. -/
def pad16len (n : Nat) : Nat := (16 - n % 16) % 16

/-- The byte string authenticated by Poly1305 in the AEAD construction:
aad and ciphertext, each zero-padded to 16 bytes, then their lengths as
64-bit little-endian values. -/
def aeadMacData (aad ct : List Nat) : List Nat :=
  aad ++ List.replicate (pad16len aad.length) 0 ++ ct ++ List.replicate (pad16len ct.length) 0 ++
    toLE 8 aad.length ++ toLE 8 ct.length

/-- The one-time Poly1305 key: first 32 bytes of the ChaCha20 block with
counter 0. -/
def polyKeyOf (key nonce : List Nat) : List Nat := (chachaBlock key nonce 0).take 32

/-- AEAD seal: ChaCha20 encryption starting at block counter 1, followed by
the 16-byte Poly1305 tag. -/
def aeadSeal (key nonce aad m : List Nat) : List Nat :=
  let ct := chachaXor key nonce 1 m
  ct ++ poly1305Tag (polyKeyOf key nonce) (aeadMacData aad ct)

/-- AEAD open: reject inputs shorter than a tag, recompute the Poly1305 tag
over the received ciphertext, and decrypt only on an exact tag match. -/
def aeadOpen (key nonce aad d : List Nat) : Option (List Nat) :=
  if d.length < 16 then none
  else
    let ct := d.take (d.length - 16)
    let tag := d.drop (d.length - 16)
    if poly1305Tag (polyKeyOf key nonce) (aeadMacData aad ct) = tag then
      some (chachaXor key nonce 1 ct)
    else none

/-! ## Security module (internal/tmux/tmux.go, security part)

The external library primitives argon2.IDKey and HMAC-SHA256 are taken as
abstract function parameters (named kdf and hmac below): every claim about
this module concerns which inputs the code feeds them, not their internals.
A kdf argument receives (password, salt, iterations, memory, parallelism,
keyLength); an hmac argument receives (key, message). -/

/-- Argon2 parameter record (Argon2Config in tmux.go). -/
structure Argon2Config where
  memory : Nat
  iterations : Nat
  parallelism : Nat
  saltLength : Nat
  keyLength : Nat

/-- Security configuration (SecurityConfig in tmux.go). The Go map of
session passwords is modelled as an association list in its iteration
order. -/
structure SecurityConfig where
  enabled : Bool
  method : String
  globalPassword : String
  sessionPasswords : List (String × String)
  argon2Params : Argon2Config

/-- DefaultSecurityConfig from tmux.go. -/
def defaultSecurityConfig : SecurityConfig :=
  { enabled := false
    method := "password"
    globalPassword := ""
    sessionPasswords := []
    argon2Params :=
      { memory := 65536, iterations := 3, parallelism := 4, saltLength := 16, keyLength := 32 } }

/-- The type of the abstract argon2.IDKey primitive. -/
def KdfFun : Type := String → List Nat → Nat → Nat → Nat → Nat → List Nat

/-- The type of the abstract HMAC-SHA256 primitive. -/
def HmacFun : Type := List Nat → List Nat → List Nat

/-- PasswordAuth.DeriveKey: argon2.IDKey of password and salt with the
configured parameters. -/
def deriveKey (kdf : KdfFun) (cfg : SecurityConfig) (password : String) (salt : List Nat) :
    List Nat :=
  kdf password salt cfg.argon2Params.iterations cfg.argon2Params.memory
    cfg.argon2Params.parallelism cfg.argon2Params.keyLength

/-- PasswordAuth.GenerateAuthResponse: reject nonces shorter than 16 bytes,
derive the auth key with the first 16 nonce bytes as salt, and HMAC the
whole nonce with it. -/
def generateAuthResponse (kdf : KdfFun) (hmac : HmacFun) (cfg : SecurityConfig)
    (password : String) (nonce : List Nat) : Except String (List Nat) :=
  if nonce.length < 16 then .error "nonce too short: need at least 16 bytes"
  else .ok (hmac (deriveKey kdf cfg password (nonce.take 16)) nonce)

/-- PasswordAuth.VerifyAuthResponse: recompute the expected response and
compare (hmac.Equal is a constant-time byte-equality check; its functional
content is list equality). -/
def verifyAuthResponse (kdf : KdfFun) (hmac : HmacFun) (cfg : SecurityConfig)
    (password : String) (nonce response : List Nat) : Bool :=
  match generateAuthResponse kdf hmac cfg password nonce with
  | .error _ => false
  | .ok expected => expected == response

/-- The Go pattern: var key [32]byte; copy(key, src) — take at most 32
bytes and zero-fill the rest. -/
def goCopy32 (src : List Nat) : List Nat :=
  src.take 32 ++ List.replicate (32 - src.length) 0

/-- PasswordAuth.DeriveSessionKey: reject nonces shorter than 32 bytes,
derive the session key with nonce bytes 16..32 as salt. -/
def deriveSessionKey (kdf : KdfFun) (cfg : SecurityConfig) (password : String)
    (nonce : List Nat) : Except String (List Nat) :=
  if nonce.length < 32 then .error "nonce too short: need at least 32 bytes"
  else .ok (goCopy32 (deriveKey kdf cfg password ((nonce.drop 16).take 16)))

/-- PasswordAuth.GetPasswordForSession: session-specific password first,
global password as fallback. -/
def getPasswordForSession (cfg : SecurityConfig) (sessionName : String) : String :=
  match cfg.sessionPasswords.lookup sessionName with
  | some password => password
  | none => cfg.globalPassword

/-! ## EncryptedConnection (internal/tmux/tmux.go) -/

/-- EncryptedConnection from tmux.go: the ChaCha20-Poly1305 AEAD keyed by
the session key, plus the uint64 send counter. -/
structure EncryptedConnection where
  cipherKey : List Nat
  nonceCounter : Nat

/-- NewEncryptedConnection: counter starts at 0. -/
def newEncryptedConnection (sessionKey : List Nat) : EncryptedConnection :=
  ⟨sessionKey, 0⟩

/-- The 96-bit record nonce built by EncryptedConnection.Encrypt: the
counter in little-endian order in bytes 0..7, bytes 8..11 zero. -/
def mkRecordNonce (ctr : Nat) : List Nat :=
  [ctr % 256, (ctr >>> 8) % 256, (ctr >>> 16) % 256, (ctr >>> 24) % 256,
   (ctr >>> 32) % 256, (ctr >>> 40) % 256, (ctr >>> 48) % 256, (ctr >>> 56) % 256,
   0, 0, 0, 0]

/-- The bytes produced by EncryptedConnection.Encrypt: record nonce
followed by the AEAD seal of the data (no associated data). -/
def EncryptedConnection.encryptBytes (ec : EncryptedConnection) (data : List Nat) : List Nat :=
  mkRecordNonce ec.nonceCounter ++
    aeadSeal ec.cipherKey (mkRecordNonce ec.nonceCounter) [] data

/-- EncryptedConnection.Encrypt: build the nonce from the send counter,
increment the counter (uint64 arithmetic wraps modulo 2 ^ 64), seal. The
Go function returns a nil error unconditionally; there is no exhaustion
check on the counter. -/
def EncryptedConnection.encrypt (ec : EncryptedConnection) (data : List Nat) :
    Except String (List Nat) × EncryptedConnection :=
  (.ok (ec.encryptBytes data), ⟨ec.cipherKey, (ec.nonceCounter + 1) % 2 ^ 64⟩)

/-- EncryptedConnection.Decrypt: reject records shorter than a nonce, split
off the 12-byte nonce, open the rest. The receive side state is untouched. -/
def EncryptedConnection.decrypt (ec : EncryptedConnection) (data : List Nat) :
    Except String (List Nat) :=
  if data.length < 12 then .error "encrypted data too short"
  else
    match aeadOpen ec.cipherKey (data.take 12) [] (data.drop 12) with
    | some plaintext => .ok plaintext
    | none => .error "decryption failed"

/-! ## Protocol message constants and parsing (tmux.go, part_017) -/

/-- Go strings.TrimSpace on ASCII data: drop leading and trailing
whitespace characters. -/
def goIsSpace (c : Char) : Bool :=
  c == ' ' || c == '\t' || c == '\n' || c == '\r' || c == '\x0b' || c == '\x0c'

/-- TrimSpace on a character list. -/
def goTrimSpaceL (l : List Char) : List Char :=
  ((l.dropWhile goIsSpace).reverse.dropWhile goIsSpace).reverse

/-- Go strings.TrimSpace. -/
def goTrimSpace (s : String) : String := ⟨goTrimSpaceL s.data⟩

/-- Go strings.Split with a one-character separator: split on every
occurrence, keeping empty fields. -/
def goSplitChar (sep : Char) : List Char → List (List Char)
  | [] => [[]]
  | c :: rest =>
    if c == sep then [] :: goSplitChar sep rest
    else
      match goSplitChar sep rest with
      | [] => [[c]]
      | p :: ps => (c :: p) :: ps

/-- Go strings.HasPrefix. -/
def goStartsWith (s pre : String) : Bool := pre.data.isPrefixOf s.data

/-- Go strings.Contains with a one-character needle. -/
def goContainsChar (s : String) (c : Char) : Bool := s.data.contains c

/-- Go strings.TrimPrefix: drop the given leading string when present. -/
def goTrimPfx (s pre : String) : String :=
  if goStartsWith s pre then ⟨s.data.drop pre.data.length⟩ else s

/-- The version constant and plain handshake line of internal/jcat. -/
def jcatVersion : String := "2.0.0"

/-- HandshakeMsg = "JCAT/" + JcatVersion + "\n". -/
def handshakeMsg : String := "JCAT/" ++ jcatVersion ++ "\n"

/-- SecureHandshakeMsg from tmux.go. -/
def secureHandshakeMsg : String := "JCAT/2.0.0+SEC\n"

/-- AuthMethodPassword from tmux.go. -/
def authMethodPassword : String := "password"

/-- The type of the abstract base64.StdEncoding.DecodeString primitive. -/
def B64Decode : Type := String → Except String (List Nat)

/-- ParseAuthMessage from tmux.go: trim, require the AUTH: lead, reject an
empty method. -/
def parseAuthMessage (msg : String) : Except String String :=
  let msg := goTrimSpace msg
  if ¬ goStartsWith msg "AUTH:" then .error "invalid auth message format"
  else
    let method := goTrimPfx msg "AUTH:"
    if method = "" then .error "empty auth method" else .ok method

/-- ParseChallengeMessage from tmux.go: trim, require the CHALLENGE: lead,
base64-decode the rest. -/
def parseChallengeMessage (b64dec : B64Decode) (msg : String) : Except String (List Nat) :=
  let msg := goTrimSpace msg
  if ¬ goStartsWith msg "CHALLENGE:" then .error "invalid challenge message format"
  else
    match b64dec (goTrimPfx msg "CHALLENGE:") with
    | .error e => .error ("invalid base64 in challenge: " ++ e)
    | .ok nonce => .ok nonce

/-- ParseResponseMessage from tmux.go: trim, require the RESPONSE: lead,
base64-decode the rest. -/
def parseResponseMessage (b64dec : B64Decode) (msg : String) : Except String (List Nat) :=
  let msg := goTrimSpace msg
  if ¬ goStartsWith msg "RESPONSE:" then .error "invalid response message format"
  else
    match b64dec (goTrimPfx msg "RESPONSE:") with
    | .error e => .error ("invalid base64 in response: " ++ e)
    | .ok response => .ok response

/-- The mode parsing done by Server.handle (part_017) and
SecureServer.performServerHandshake (secure.go): default to pair, and
only when the message has the MODE: lead and contains a newline, take the
text after the first colon, trim it, cut it at the first newline, and trim
again. An unrecognized but well-formed token is passed through verbatim. -/
def parseClientMode (modeStr : String) : String :=
  if goStartsWith modeStr "MODE:" && goContainsChar modeStr '\n' then
    let clientMode := goTrimSpaceL ((goSplitChar ':' modeStr.data).getD 1 [])
    let clientMode := goTrimSpaceL ((goSplitChar '\n' clientMode).getD 0 [])
    ⟨clientMode⟩
  else "pair"

/-- The mode-read step of the hosting side after a successful read of the
mode message: parsing never fails and the connection proceeds. -/
def modeNegotiation (modeStr : String) : Except String String :=
  .ok (parseClientMode modeStr)

/-! ## EncryptedConn framing (internal/jcat/secure.go) -/

/-- Read-side errors of EncryptedConn.Read. -/
inductive ReadErr where
  | readShort : ReadErr
  | badLength : Nat → ReadErr
  | decryptFail : String → ReadErr
deriving DecidableEq

/-- EncryptedConn from secure.go: the underlying connection is modelled as
the list of incoming wire bytes still unread. -/
structure EncryptedConn where
  conn : List Nat
  readBuf : List Nat
  encryptor : EncryptedConnection

/-- The wire bytes produced by one EncryptedConn.Write: 4-byte big-endian
length of the encrypted record, then the record. -/
def EncryptedConn.writeBytes (ec : EncryptedConn) (p : List Nat) : List Nat :=
  beEncode (ec.encryptor.encryptBytes p).length ++ ec.encryptor.encryptBytes p

/-- EncryptedConn.Write: encrypt, send the length header and the record,
report len(p) written. -/
def EncryptedConn.write (ec : EncryptedConn) (p : List Nat) :
    Except String (List Nat × Nat × EncryptedConn) :=
  match ec.encryptor.encrypt p with
  | (.ok encryptedData, enc) =>
    .ok (beEncode encryptedData.length ++ encryptedData, p.length, { ec with encryptor := enc })
  | (.error e, _) => .error e

/-- EncryptedConn.Read with a caller buffer of the given size: drain the
internal buffer first; otherwise read the 4-byte length header, reject
lengths of 0 or above 64 KiB, read the record, decrypt it, deliver what
fits in the caller buffer and keep the remainder buffered. -/
def EncryptedConn.read (ec : EncryptedConn) (size : Nat) :
    Except ReadErr (List Nat × EncryptedConn) :=
  if ec.readBuf ≠ [] then
    .ok (ec.readBuf.take size, { ec with readBuf := ec.readBuf.drop size })
  else if ec.conn.length < 4 then .error .readShort
  else
    let length := beDecode (ec.conn.take 4)
    if length = 0 ∨ length > 64 * 1024 then .error (.badLength length)
    else if (ec.conn.drop 4).length < length then .error .readShort
    else
      match ec.encryptor.decrypt ((ec.conn.drop 4).take length) with
      | .error e => .error (.decryptFail e)
      | .ok decryptedData =>
        .ok (decryptedData.take size,
          { ec with
            conn := ec.conn.drop (4 + length)
            readBuf := decryptedData.drop size })

/-- The sequence of record payloads decodable from a wire byte list under a
given key, in arrival order, mirroring the guards of EncryptedConn.Read. -/
def wireRecords (key : List Nat) (w : List Nat) : List (List Nat) :=
  if _h4 : w.length < 4 then []
  else
    let length := beDecode (w.take 4)
    if _hl : length = 0 ∨ length > 64 * 1024 then []
    else if _hs : (w.drop 4).length < length then []
    else
      match EncryptedConnection.decrypt ⟨key, 0⟩ ((w.drop 4).take length) with
      | .error _ => []
      | .ok p => p :: wireRecords key (w.drop (4 + length))
termination_by w.length
decreasing_by simp [List.length_drop]; omega

/-- A sequence of EncryptedConn.Read calls with the given caller buffer
sizes, concatenating everything delivered. -/
def runReads (ec : EncryptedConn) : List Nat → Except ReadErr (List Nat × EncryptedConn)
  | [] => .ok ([], ec)
  | size :: sizes =>
    match ec.read size with
    | .error e => .error e
    | .ok (d, ec₂) =>
      match runReads ec₂ sizes with
      | .error e => .error e
      | .ok (out, ec₃) => .ok (d ++ out, ec₃)

/-! ## Server-side authentication decision (performServerHandshake, secure.go) -/

/-- The session-password loop of performServerHandshake: first password in
map order whose response verifies and whose session key derives without
error. -/
def tryPasswordList (kdf : KdfFun) (hmac : HmacFun) (cfg : SecurityConfig)
    (nonce response : List Nat) : List (String × String) → Option (List Nat)
  | [] => none
  | (_, password) :: rest =>
    if verifyAuthResponse kdf hmac cfg password nonce response then
      match deriveSessionKey kdf cfg password nonce with
      | .ok sessionKey => some sessionKey
      | .error _ => tryPasswordList kdf hmac cfg nonce response rest
    else tryPasswordList kdf hmac cfg nonce response rest

/-- The authentication decision of performServerHandshake: try the global
password first (when configured), then every session-scoped password.
Returns the derived session key on success. -/
def serverTryAuth (kdf : KdfFun) (hmac : HmacFun) (cfg : SecurityConfig)
    (nonce response : List Nat) : Option (List Nat) :=
  let fromGlobal : Option (List Nat) :=
    if getPasswordForSession cfg "" ≠ "" then
      if verifyAuthResponse kdf hmac cfg (getPasswordForSession cfg "") nonce response then
        match deriveSessionKey kdf cfg (getPasswordForSession cfg "") nonce with
        | .ok sessionKey => some sessionKey
        | .error _ => none
      else none
    else none
  match fromGlobal with
  | some sessionKey => some sessionKey
  | none => tryPasswordList kdf hmac cfg nonce response cfg.sessionPasswords

/-- The candidate passwords the hosting side tries, in order: the global
password (when configured), then each session-scoped password. -/
def authCandidates (cfg : SecurityConfig) : List String :=
  (if getPasswordForSession cfg "" ≠ "" then [getPasswordForSession cfg ""] else []) ++
    cfg.sessionPasswords.map Prod.snd

/-- The authentication reply and handshake outcome: AUTH_FAIL plus an error
when no candidate authenticates, AUTH_OK plus the session key otherwise. -/
def serverAuthReply (kdf : KdfFun) (hmac : HmacFun) (cfg : SecurityConfig)
    (nonce response : List Nat) : String × Except String (List Nat) :=
  match serverTryAuth kdf hmac cfg nonce response with
  | none => ("AUTH_FAIL", .error "authentication failed")
  | some sessionKey => ("AUTH_OK", .ok sessionKey)

/-! ## Connection-setup traces (part_017, secure.go)

The sequential control flow of connection setup is embedded as a function
from the peer input (modelled as the lines the code reads, in order) to
the list of protocol actions taken, so claims about step ordering can be
stated. Reads from the TCP socket are modelled as already-split lines;
base64 is the abstract parameter b64dec. -/

/-- Protocol actions of one side during connection setup. -/
inductive Ev where
  | sentHandshake : Ev
  | sentAuthMethod : Ev
  | sentChallenge : Ev
  | sentResponse : Ev
  | sentAuthOk : Ev
  | sentAuthFail : Ev
  | sentMode : Ev
  | openedStream : Ev
  | acceptedStream : Ev
deriving DecidableEq

/-- Raw bytes interpreted as a string, as the Go conversion string(b). -/
def stringOfBytes (l : List Nat) : String := ⟨l.map Char.ofNat⟩

/-- The lines a connecting client reads during the secure handshake. -/
structure ClientWire where
  hsLine : String
  challengeLine : String
  authResultLine : String

/-- SecureClient.performClientHandshake as a trace: check the secure
handshake line, send AUTH, parse the challenge, resolve the password,
send the response, require AUTH_OK, derive the session key, send MODE
over the encrypted channel. -/
def performClientHandshakeTr (kdf : KdfFun) (hmac : HmacFun) (b64dec : B64Decode)
    (cfg : SecurityConfig) (sessionName password : String) (w : ClientWire) :
    List Ev × Except String (List Nat) :=
  if goTrimSpace w.hsLine ≠ goTrimSpace secureHandshakeMsg then
    ([], .error ("invalid secure handshake: " ++ w.hsLine))
  else
    match parseChallengeMessage b64dec w.challengeLine with
    | .error e => ([Ev.sentAuthMethod], .error ("failed to parse challenge: " ++ e))
    | .ok nonce =>
      let password := if password = "" then getPasswordForSession cfg sessionName else password
      if password = "" then ([Ev.sentAuthMethod], .error "no password configured for session")
      else
        match generateAuthResponse kdf hmac cfg password nonce with
        | .error e => ([Ev.sentAuthMethod], .error ("failed to generate auth response: " ++ e))
        | .ok _response =>
          if goTrimSpace w.authResultLine ≠ "AUTH_OK" then
            ([Ev.sentAuthMethod, Ev.sentResponse],
             .error ("authentication failed: " ++ goTrimSpace w.authResultLine))
          else
            match deriveSessionKey kdf cfg password nonce with
            | .error e =>
              ([Ev.sentAuthMethod, Ev.sentResponse],
               .error ("failed to derive session key: " ++ e))
            | .ok sessionKey =>
              ([Ev.sentAuthMethod, Ev.sentResponse, Ev.sentMode], .ok sessionKey)

/-- SecureClient.Connect as a trace: on handshake failure return the error;
on success hand over to continueWithEncryptedConnection, which in the
source is a stub that returns an error without opening any stream. -/
def secureClientConnectTr (kdf : KdfFun) (hmac : HmacFun) (b64dec : B64Decode)
    (cfg : SecurityConfig) (sessionName password : String) (w : ClientWire) :
    List Ev × Except String Unit :=
  let r := performClientHandshakeTr kdf hmac b64dec cfg sessionName password w
  (r.1,
    match r.2 with
    | .error e => .error ("secure handshake failed: " ++ e)
    | .ok _ => .error "encrypted client connection continuation not yet implemented")

/-- The input a hosting side consumes during the secure handshake: the two
lines read from the socket and the encrypted bytes that follow AUTH_OK. -/
structure ServerWire where
  authLine : String
  responseLine : String
  encWire : List Nat

/-- SecureServer.performServerHandshake as a trace: send the secure
handshake line, parse the auth method, send the challenge built from the
generated nonce (the random nonce is a parameter of the model), parse the
response, run the candidate-password authentication, answer AUTH_FAIL or
AUTH_OK, and on success read the mode message over the encrypted channel. -/
def performServerHandshakeTr (kdf : KdfFun) (hmac : HmacFun) (b64dec : B64Decode)
    (cfg : SecurityConfig) (nonce : List Nat) (w : ServerWire) :
    List Ev × Except String (List Nat × String) :=
  match parseAuthMessage w.authLine with
  | .error e => ([Ev.sentHandshake], .error ("failed to parse auth method: " ++ e))
  | .ok method =>
    if method ≠ authMethodPassword then
      ([Ev.sentHandshake], .error ("unsupported auth method: " ++ method))
    else
      match parseResponseMessage b64dec w.responseLine with
      | .error e =>
        ([Ev.sentHandshake, Ev.sentChallenge], .error ("failed to parse response: " ++ e))
      | .ok response =>
        match serverTryAuth kdf hmac cfg nonce response with
        | none =>
          ([Ev.sentHandshake, Ev.sentChallenge, Ev.sentAuthFail], .error "authentication failed")
        | some sessionKey =>
          match EncryptedConn.read ⟨w.encWire, [], newEncryptedConnection sessionKey⟩ 256 with
          | .error _ =>
            ([Ev.sentHandshake, Ev.sentChallenge, Ev.sentAuthOk], .error "failed to read mode")
          | .ok (modeBytes, _) =>
            ([Ev.sentHandshake, Ev.sentChallenge, Ev.sentAuthOk],
             .ok (sessionKey, parseClientMode (stringOfBytes modeBytes)))

/-- SecureServer.handleSecure as a trace: on handshake failure close the
connection; on success hand over to continueWithEncryptedConnection, which
in the source is a stub that only logs and accepts no stream. -/
def handleSecureTr (kdf : KdfFun) (hmac : HmacFun) (b64dec : B64Decode)
    (cfg : SecurityConfig) (nonce : List Nat) (w : ServerWire) :
    List Ev × Except String Unit :=
  let r := performServerHandshakeTr kdf hmac b64dec cfg nonce w
  (r.1,
    match r.2 with
    | .error e => .error e
    | .ok _ => .ok ())

/-- Client.Connect of the plain protocol (part_017) as a trace: read
exactly len(HandshakeMsg) bytes, require an exact match, then send the
mode line and open the control and data streams. The interactive part
after stream setup is summarized by its protocol actions. -/
def clientConnectTr (wire : String) : List Ev × Except String Unit :=
  if wire.data.length < handshakeMsg.data.length then ([], .error "handshake error")
  else
    let handshake : String := ⟨wire.data.take handshakeMsg.data.length⟩
    if handshake = handshakeMsg then
      ([Ev.sentMode, Ev.openedStream, Ev.openedStream], .ok ())
    else ([], .error ("invalid handshake: " ++ handshake))

/-- True exactly on an ok result. -/
def exOk {ε α : Type} (e : Except ε α) : Bool :=
  match e with
  | .ok _ => true
  | .error _ => false

/-! ## Concrete instances of the abstract primitives, for evaluation -/

/-- A concrete stand-in for the abstract KDF, used to evaluate theorems at
concrete inputs: constant 32-byte output. -/
def kdf0 : KdfFun := fun _ _ _ _ _ _ => List.replicate 32 0

/-- A concrete stand-in for the abstract HMAC, used to evaluate theorems at
concrete inputs. -/
def hmac0 : HmacFun := fun _ _ => []

/-- A concrete stand-in for the abstract base64 decoder, used to evaluate
theorems at concrete inputs. -/
def b64dec0 : B64Decode := fun _ => .ok []

/-! ## Length lemmas for the cipher -/

@[simp]
theorem length_le4 (w : Nat) : (le4 w).length = 4 := by
  simp [le4]

@[simp]
theorem length_serializeState (s : ChaChaState) : (serializeState s).length = 64 := by
  simp [serializeState]

@[simp]
theorem length_chachaBlock (key nonce : List Nat) (ctr : Nat) :
    (chachaBlock key nonce ctr).length = 64 := by
  simp [chachaBlock]

theorem length_ksBlocks (key nonce : List Nat) (ctr num : Nat) :
    (ksBlocks key nonce ctr num).length = 64 * num := by
  induction num generalizing ctr with
  | zero => simp [ksBlocks]
  | succ n ih => simp [ksBlocks, ih]; ring

@[simp]
theorem length_chachaKeystream (key nonce : List Nat) (ctr len : Nat) :
    (chachaKeystream key nonce ctr len).length = len := by
  simp [chachaKeystream, length_ksBlocks]
  omega

@[simp]
theorem length_chachaXor (key nonce : List Nat) (ctr : Nat) (m : List Nat) :
    (chachaXor key nonce ctr m).length = m.length := by
  simp [chachaXor]

@[simp]
theorem length_toLE (n x : Nat) : (toLE n x).length = n := by
  induction n generalizing x with
  | zero => simp [toLE]
  | succ k ih => simp [toLE, ih]

@[simp]
theorem length_poly1305Tag (pkey msg : List Nat) : (poly1305Tag pkey msg).length = 16 := by
  simp [poly1305Tag]

@[simp]
theorem length_mkRecordNonce (ctr : Nat) : (mkRecordNonce ctr).length = 12 := by
  simp [mkRecordNonce]

/-! ## The xor stream is an involution -/

theorem zipWith_xor_cancel :
    ∀ (m ks : List Nat), m.length ≤ ks.length →
      List.zipWith (fun a b => a ^^^ b) (List.zipWith (fun a b => a ^^^ b) m ks) ks = m := by
  intro m
  induction m with
  | nil => intro ks _; simp
  | cons a m ih =>
    intro ks hlen
    cases ks with
    | nil => simp at hlen
    | cons b ks =>
      simp only [List.zipWith_cons_cons, List.cons.injEq]
      refine ⟨?_, ih ks (by simpa using hlen)⟩
      rw [Nat.xor_assoc, Nat.xor_self, Nat.xor_zero]

theorem chachaXor_inv (key nonce : List Nat) (ctr : Nat) (m : List Nat) :
    chachaXor key nonce ctr (chachaXor key nonce ctr m) = m := by
  conv_lhs => rw [chachaXor, length_chachaXor]
  rw [chachaXor]
  exact zipWith_xor_cancel m (chachaKeystream key nonce ctr m.length) (by simp)

/-! ## AEAD round trip -/

theorem length_aeadSeal (key nonce aad m : List Nat) :
    (aeadSeal key nonce aad m).length = m.length + 16 := by
  simp [aeadSeal]

theorem aeadOpen_aeadSeal (key nonce aad m : List Nat) :
    aeadOpen key nonce aad (aeadSeal key nonce aad m) = some m := by
  have hct : (chachaXor key nonce 1 m).length = m.length := by simp
  have hlen : (aeadSeal key nonce aad m).length = m.length + 16 := length_aeadSeal ..
  rw [aeadOpen, if_neg (by omega)]
  have hsub : (chachaXor key nonce 1 m ++
      poly1305Tag (polyKeyOf key nonce) (aeadMacData aad (chachaXor key nonce 1 m))).length - 16 =
      (chachaXor key nonce 1 m).length := by
    simp
  have htake : (aeadSeal key nonce aad m).take ((aeadSeal key nonce aad m).length - 16) =
      chachaXor key nonce 1 m := by
    rw [aeadSeal, hsub, List.take_left]
  have hdrop : (aeadSeal key nonce aad m).drop ((aeadSeal key nonce aad m).length - 16) =
      poly1305Tag (polyKeyOf key nonce) (aeadMacData aad (chachaXor key nonce 1 m)) := by
    rw [aeadSeal, hsub, List.drop_left]
  rw [htake, hdrop, if_pos rfl, chachaXor_inv]

/-! ## EncryptedConnection round trip -/

theorem length_encryptBytes (ec : EncryptedConnection) (data : List Nat) :
    (ec.encryptBytes data).length = data.length + 28 := by
  simp [EncryptedConnection.encryptBytes, length_aeadSeal]
  omega

theorem decrypt_encryptBytes (key : List Nat) (c₁ c₂ : Nat) (m : List Nat) :
    EncryptedConnection.decrypt ⟨key, c₂⟩ (EncryptedConnection.encryptBytes ⟨key, c₁⟩ m) =
      .ok m := by
  have hlen : (EncryptedConnection.encryptBytes ⟨key, c₁⟩ m).length = m.length + 28 :=
    length_encryptBytes ..
  rw [EncryptedConnection.decrypt, if_neg (by omega)]
  have h12 : (12 : Nat) = (mkRecordNonce c₁).length := by simp
  have htake : (EncryptedConnection.encryptBytes ⟨key, c₁⟩ m).take 12 = mkRecordNonce c₁ := by
    rw [EncryptedConnection.encryptBytes, h12, List.take_left]
  have hdrop : (EncryptedConnection.encryptBytes ⟨key, c₁⟩ m).drop 12 =
      aeadSeal key (mkRecordNonce c₁) [] m := by
    rw [EncryptedConnection.encryptBytes, h12, List.drop_left]
  rw [htake, hdrop, aeadOpen_aeadSeal]

/-! ## Big-endian length header round trip -/

theorem lor_shift_add (k : Nat) :
    ∀ (x y : Nat), y < 2 ^ k → (x * 2 ^ k) ||| y = x * 2 ^ k + y := by
  induction k with
  | zero =>
    intro x y hy
    interval_cases y
    simp
  | succ k ih =>
    intro x y hy
    have hbit : Nat.bit y.bodd y.div2 = y := Nat.bit_decomp y
    have hx : x * 2 ^ (k + 1) = Nat.bit false (x * 2 ^ k) := by
      rw [Nat.bit_val]
      simp [Bool.toNat]
      ring
    have hdiv : y.div2 < 2 ^ k := by
      rw [Nat.div2_val]
      omega
    calc x * 2 ^ (k + 1) ||| y = Nat.bit false (x * 2 ^ k) ||| Nat.bit y.bodd y.div2 := by
          rw [hx, hbit]
      _ = Nat.bit (false || y.bodd) ((x * 2 ^ k) ||| y.div2) := Nat.lor_bit ..
      _ = Nat.bit y.bodd (x * 2 ^ k + y.div2) := by rw [Bool.false_or, ih _ _ hdiv]
      _ = x * 2 ^ (k + 1) + y := by
          rw [Nat.bit_val]
          have hy2 : 2 * y.div2 + y.bodd.toNat = y := by
            rw [← Nat.bit_val, hbit]
          ring_nf
          omega

theorem beDecode_beEncode (L : Nat) (h : L < 2 ^ 32) : beDecode (beEncode L) = L := by
  rw [beEncode, beDecode]
  simp only [List.getD, List.get?, Option.getD_some]
  rw [Nat.shiftLeft_eq, Nat.shiftLeft_eq, Nat.shiftLeft_eq]
  rw [Nat.shiftRight_eq_div_pow, Nat.shiftRight_eq_div_pow, Nat.shiftRight_eq_div_pow]
  have h8 : L % 256 < 2 ^ 8 := by omega
  have h16 : L / 2 ^ 8 % 256 * 2 ^ 8 + L % 256 < 2 ^ 16 := by omega
  have h24 : L / 2 ^ 16 % 256 * 2 ^ 16 + (L / 2 ^ 8 % 256 * 2 ^ 8 + L % 256) < 2 ^ 24 := by
    omega
  rw [Nat.lor_assoc, Nat.lor_assoc]
  rw [lor_shift_add 8 (L / 2 ^ 8 % 256) (L % 256) h8]
  rw [lor_shift_add 16 (L / 2 ^ 16 % 256) _ h16]
  rw [lor_shift_add 24 (L / 2 ^ 24 % 256) _ h24]
  omega

/-! ## EncryptedConn.Read on one well-formed record -/

theorem read_record (ec : EncryptedConn) (size : Nat) (p : List Nat)
    (hbuf : ec.readBuf = [])
    (h4 : ¬ ec.conn.length < 4)
    (hlen : ¬ (beDecode (ec.conn.take 4) = 0 ∨ beDecode (ec.conn.take 4) > 64 * 1024))
    (hrest : ¬ (ec.conn.drop 4).length < beDecode (ec.conn.take 4))
    (hdec : ec.encryptor.decrypt ((ec.conn.drop 4).take (beDecode (ec.conn.take 4))) = .ok p) :
    ec.read size = .ok (p.take size,
      { ec with
        conn := ec.conn.drop (4 + beDecode (ec.conn.take 4))
        readBuf := p.drop size }) := by
  rw [EncryptedConn.read]
  rw [if_neg (by simp [hbuf]), if_neg h4]
  simp only []
  rw [if_neg hlen, if_neg hrest, hdec]

/-! ## Framing round trip -/

theorem write_ok (ec : EncryptedConn) (p : List Nat) :
    ec.write p = .ok (ec.writeBytes p, p.length,
      { ec with encryptor := ⟨ec.encryptor.cipherKey, (ec.encryptor.nonceCounter + 1) % 2 ^ 64⟩ }) :=
  rfl

theorem length_writeBytes (ec : EncryptedConn) (p : List Nat) :
    (ec.writeBytes p).length = p.length + 32 := by
  simp [EncryptedConn.writeBytes, beEncode, length_encryptBytes]

theorem read_writeBytes (key : List Nat) (c₁ c₂ : Nat) (m : List Nat) (size : Nat)
    (hm : m.length ≤ 65508) (hsz : m.length ≤ size) :
    EncryptedConn.read
        ⟨EncryptedConn.writeBytes ⟨[], [], ⟨key, c₁⟩⟩ m, [], ⟨key, c₂⟩⟩ size =
      .ok (m, ⟨[], [], ⟨key, c₂⟩⟩) := by
  have hE : (EncryptedConnection.encryptBytes ⟨key, c₁⟩ m).length = m.length + 28 :=
    length_encryptBytes ..
  have hwire : EncryptedConn.writeBytes ⟨[], [], ⟨key, c₁⟩⟩ m =
      beEncode (EncryptedConnection.encryptBytes ⟨key, c₁⟩ m).length ++
        EncryptedConnection.encryptBytes ⟨key, c₁⟩ m := rfl
  have hbe : (beEncode (EncryptedConnection.encryptBytes ⟨key, c₁⟩ m).length).length = 4 := by
    simp [beEncode]
  have htake : (EncryptedConn.writeBytes ⟨[], [], ⟨key, c₁⟩⟩ m).take 4 =
      beEncode (EncryptedConnection.encryptBytes ⟨key, c₁⟩ m).length := by
    rw [hwire, ← hbe, List.take_left]
  have hdrop : (EncryptedConn.writeBytes ⟨[], [], ⟨key, c₁⟩⟩ m).drop 4 =
      EncryptedConnection.encryptBytes ⟨key, c₁⟩ m := by
    rw [hwire, ← hbe, List.drop_left]
  have hdecodeL : beDecode ((EncryptedConn.writeBytes ⟨[], [], ⟨key, c₁⟩⟩ m).take 4) =
      m.length + 28 := by
    rw [htake, beDecode_beEncode _ (by omega), hE]
  have hwlen : (EncryptedConn.writeBytes ⟨[], [], ⟨key, c₁⟩⟩ m).length = m.length + 32 :=
    length_writeBytes ..
  have hstep := read_record ⟨EncryptedConn.writeBytes ⟨[], [], ⟨key, c₁⟩⟩ m, [], ⟨key, c₂⟩⟩
    size m rfl (by rw [hwlen]; omega)
    (by rw [hdecodeL]; omega)
    (by rw [hdecodeL, hdrop, hE]; omega)
    (by rw [hdecodeL, hdrop, ← hE, List.take_length]; exact decrypt_encryptBytes key c₁ c₂ m)
  rw [hstep]
  have h1 : m.take size = m := List.take_of_length_le hsz
  have h2 : m.drop size = ([] : List Nat) := List.drop_eq_nil_of_le (by omega)
  have h3 : (EncryptedConn.writeBytes ⟨[], [], ⟨key, c₁⟩⟩ m).drop
      (4 + beDecode ((EncryptedConn.writeBytes ⟨[], [], ⟨key, c₁⟩⟩ m).take 4)) = [] := by
    apply List.drop_eq_nil_of_le
    rw [hdecodeL, hwlen]
    omega
  rw [h1, h2, h3]

/-! ## Buffer conservation of EncryptedConn.Read -/

theorem read_buffered (ec : EncryptedConn) (size : Nat) (h : ec.readBuf ≠ []) :
    ec.read size = .ok (ec.readBuf.take size, { ec with readBuf := ec.readBuf.drop size }) := by
  rw [EncryptedConn.read, if_pos h]

theorem decrypt_key_only (ec : EncryptedConnection) (d : List Nat) :
    ec.decrypt d = EncryptedConnection.decrypt ⟨ec.cipherKey, 0⟩ d := rfl

theorem wireRecords_cons (key w p : List Nat)
    (h4 : ¬ w.length < 4)
    (hl : ¬ (beDecode (w.take 4) = 0 ∨ beDecode (w.take 4) > 64 * 1024))
    (hr : ¬ (w.drop 4).length < beDecode (w.take 4))
    (hd : EncryptedConnection.decrypt ⟨key, 0⟩ ((w.drop 4).take (beDecode (w.take 4))) = .ok p) :
    wireRecords key w = p :: wireRecords key (w.drop (4 + beDecode (w.take 4))) := by
  rw [wireRecords]
  rw [dif_neg h4]
  simp only []
  rw [dif_neg hl, dif_neg hr, hd]

theorem read_conserve (ec : EncryptedConn) (size : Nat) (d : List Nat) (ec₂ : EncryptedConn)
    (h : ec.read size = .ok (d, ec₂)) :
    d ++ ec₂.readBuf ++ (wireRecords ec₂.encryptor.cipherKey ec₂.conn).flatten =
      ec.readBuf ++ (wireRecords ec.encryptor.cipherKey ec.conn).flatten ∧
    ec₂.encryptor = ec.encryptor := by
  by_cases hb : ec.readBuf = []
  · rw [EncryptedConn.read, if_neg (by simp [hb])] at h
    by_cases h4 : ec.conn.length < 4
    · rw [if_pos h4] at h; cases h
    rw [if_neg h4] at h
    simp only [] at h
    by_cases hl : beDecode (ec.conn.take 4) = 0 ∨ beDecode (ec.conn.take 4) > 64 * 1024
    · rw [if_pos hl] at h; cases h
    rw [if_neg hl] at h
    by_cases hr : (ec.conn.drop 4).length < beDecode (ec.conn.take 4)
    · rw [if_pos hr] at h; cases h
    rw [if_neg hr] at h
    cases hd : ec.encryptor.decrypt ((ec.conn.drop 4).take (beDecode (ec.conn.take 4))) with
    | error e => rw [hd] at h; cases h
    | ok p =>
      rw [hd] at h
      simp only [Except.ok.injEq, Prod.mk.injEq] at h
      obtain ⟨hdv, hecv⟩ := h
      subst hdv
      subst hecv
      refine ⟨?_, rfl⟩
      have hcons := wireRecords_cons ec.encryptor.cipherKey ec.conn p h4 hl hr
        (by rw [← decrypt_key_only]; exact hd)
      simp only [hb, hcons, List.flatten_cons, List.nil_append]
      rw [List.take_append_drop]
  · rw [read_buffered ec size hb] at h
    simp only [Except.ok.injEq, Prod.mk.injEq] at h
    obtain ⟨hdv, hecv⟩ := h
    subst hdv
    subst hecv
    refine ⟨?_, rfl⟩
    dsimp only
    rw [List.take_append_drop]

theorem runReads_conserve :
    ∀ (sizes : List Nat) (ec : EncryptedConn) (out : List Nat) (ec₃ : EncryptedConn),
      runReads ec sizes = .ok (out, ec₃) →
      out ++ ec₃.readBuf ++ (wireRecords ec₃.encryptor.cipherKey ec₃.conn).flatten =
        ec.readBuf ++ (wireRecords ec.encryptor.cipherKey ec.conn).flatten ∧
      ec₃.encryptor = ec.encryptor := by
  intro sizes
  induction sizes with
  | nil =>
    intro ec out ec₃ h
    simp only [runReads, Except.ok.injEq, Prod.mk.injEq] at h
    obtain ⟨h1, h2⟩ := h
    subst h1
    subst h2
    simp
  | cons size sizes ih =>
    intro ec out ec₃ h
    rw [runReads] at h
    split at h
    · exact Except.noConfusion h
    · rename_i d ec₂ hr
      split at h
      · exact Except.noConfusion h
      · rename_i out₂ ec₄ hrr
        simp only [Except.ok.injEq, Prod.mk.injEq] at h
        obtain ⟨h1, h2⟩ := h
        subst h1
        subst h2
        obtain ⟨hc1, he1⟩ := read_conserve ec size d ec₂ hr
        obtain ⟨hc2, he2⟩ := ih ec₂ out₂ ec₄ hrr
        constructor
        · calc (d ++ out₂) ++ ec₄.readBuf ++ (wireRecords ec₄.encryptor.cipherKey ec₄.conn).flatten
              = d ++ (out₂ ++ ec₄.readBuf ++
                (wireRecords ec₄.encryptor.cipherKey ec₄.conn).flatten) := by
                simp [List.append_assoc]
          _ = d ++ (ec₂.readBuf ++ (wireRecords ec₂.encryptor.cipherKey ec₂.conn).flatten) := by
                rw [hc2]
          _ = ec.readBuf ++ (wireRecords ec.encryptor.cipherKey ec.conn).flatten := by
                rw [← hc1]
                simp [List.append_assoc]
        · rw [he2, he1]

/-! ## The server accepts exactly the configured candidates -/

theorem deriveSessionKey_ok (kdf : KdfFun) (cfg : SecurityConfig) (password : String)
    (nonce : List Nat) (h32 : 32 ≤ nonce.length) :
    deriveSessionKey kdf cfg password nonce =
      .ok (goCopy32 (deriveKey kdf cfg password ((nonce.drop 16).take 16))) := by
  rw [deriveSessionKey, if_neg (by omega)]

theorem tryPasswordList_isSome_iff (kdf : KdfFun) (hmac : HmacFun) (cfg : SecurityConfig)
    (nonce response : List Nat) (h32 : 32 ≤ nonce.length) :
    ∀ l : List (String × String),
      (tryPasswordList kdf hmac cfg nonce response l).isSome = true ↔
        ∃ pw ∈ l.map Prod.snd, verifyAuthResponse kdf hmac cfg pw nonce response = true := by
  intro l
  induction l with
  | nil => simp [tryPasswordList]
  | cons head rest ih =>
    obtain ⟨name, password⟩ := head
    rw [tryPasswordList]
    by_cases hv : verifyAuthResponse kdf hmac cfg password nonce response = true
    · rw [if_pos hv, deriveSessionKey_ok kdf cfg password nonce h32]
      simp only [Option.isSome_some, List.map_cons, List.mem_cons, true_iff]
      exact ⟨password, Or.inl rfl, hv⟩
    · rw [if_neg hv]
      simp only [List.map_cons, List.mem_cons]
      rw [ih]
      constructor
      · rintro ⟨pw, hmem, hver⟩
        exact ⟨pw, Or.inr hmem, hver⟩
      · rintro ⟨pw, hpm, hver⟩
        rcases hpm with heq | hmem
        · subst heq
          exact absurd hver hv
        · exact ⟨pw, hmem, hver⟩

theorem serverTryAuth_isSome_iff (kdf : KdfFun) (hmac : HmacFun) (cfg : SecurityConfig)
    (nonce response : List Nat) (h32 : 32 ≤ nonce.length) :
    (serverTryAuth kdf hmac cfg nonce response).isSome = true ↔
      ∃ pw ∈ authCandidates cfg, verifyAuthResponse kdf hmac cfg pw nonce response = true := by
  rw [serverTryAuth, authCandidates]
  by_cases hg : getPasswordForSession cfg "" ≠ ""
  · rw [if_pos hg]
    by_cases hv : verifyAuthResponse kdf hmac cfg (getPasswordForSession cfg "") nonce
        response = true
    · rw [if_pos hv, deriveSessionKey_ok kdf cfg _ nonce h32]
      simp only [if_pos hg, Option.isSome_some, true_iff, List.mem_append, List.mem_singleton]
      exact ⟨getPasswordForSession cfg "", Or.inl (by simp), hv⟩
    · rw [if_neg hv]
      simp only [if_pos hg]
      rw [tryPasswordList_isSome_iff kdf hmac cfg nonce response h32 cfg.sessionPasswords]
      constructor
      · rintro ⟨pw, hmem, hver⟩
        exact ⟨pw, by simp [hmem], hver⟩
      · rintro ⟨pw, hpm, hver⟩
        rcases (by simpa using hpm : pw = getPasswordForSession cfg "" ∨
            pw ∈ cfg.sessionPasswords.map Prod.snd) with heq | hmem
        · subst heq
          exact absurd hver hv
        · exact ⟨pw, hmem, hver⟩
  · rw [if_neg hg]
    rw [tryPasswordList_isSome_iff kdf hmac cfg nonce response h32 cfg.sessionPasswords]
    simp only [if_neg hg, List.nil_append]

/-! ## The connection-setup traces contain no stream operations -/

theorem performClientHandshakeTr_no_stream (kdf : KdfFun) (hmac : HmacFun) (b64dec : B64Decode)
    (cfg : SecurityConfig) (sessionName password : String) (w : ClientWire) :
    Ev.openedStream ∉ (performClientHandshakeTr kdf hmac b64dec cfg sessionName password w).1 ∧
    Ev.acceptedStream ∉ (performClientHandshakeTr kdf hmac b64dec cfg sessionName password w).1 := by
  rw [performClientHandshakeTr]
  by_cases h1 : goTrimSpace w.hsLine ≠ goTrimSpace secureHandshakeMsg
  · rw [if_pos h1]
    simp
  · rw [if_neg h1]
    cases hc : parseChallengeMessage b64dec w.challengeLine with
    | error e => simp
    | ok nonce =>
      dsimp only
      by_cases h2 : (if password = "" then getPasswordForSession cfg sessionName else password) = ""
      · rw [if_pos h2]
        simp
      · rw [if_neg h2]
        cases hg : generateAuthResponse kdf hmac cfg
            (if password = "" then getPasswordForSession cfg sessionName else password) nonce with
        | error e => simp
        | ok resp =>
          dsimp only
          by_cases h3 : goTrimSpace w.authResultLine ≠ "AUTH_OK"
          · rw [if_pos h3]
            simp
          · rw [if_neg h3]
            cases hd : deriveSessionKey kdf cfg
                (if password = "" then getPasswordForSession cfg sessionName else password)
                nonce with
            | error e => simp
            | ok k => simp

theorem secureClientConnectTr_no_stream (kdf : KdfFun) (hmac : HmacFun) (b64dec : B64Decode)
    (cfg : SecurityConfig) (sessionName password : String) (w : ClientWire) :
    Ev.openedStream ∉ (secureClientConnectTr kdf hmac b64dec cfg sessionName password w).1 ∧
    Ev.acceptedStream ∉ (secureClientConnectTr kdf hmac b64dec cfg sessionName password w).1 :=
  performClientHandshakeTr_no_stream kdf hmac b64dec cfg sessionName password w

theorem secureClientConnectTr_never_ok (kdf : KdfFun) (hmac : HmacFun) (b64dec : B64Decode)
    (cfg : SecurityConfig) (sessionName password : String) (w : ClientWire) :
    exOk (secureClientConnectTr kdf hmac b64dec cfg sessionName password w).2 = false := by
  rw [secureClientConnectTr]
  split
  · rfl
  · rfl

theorem performServerHandshakeTr_no_stream (kdf : KdfFun) (hmac : HmacFun) (b64dec : B64Decode)
    (cfg : SecurityConfig) (nonce : List Nat) (w : ServerWire) :
    Ev.openedStream ∉ (performServerHandshakeTr kdf hmac b64dec cfg nonce w).1 ∧
    Ev.acceptedStream ∉ (performServerHandshakeTr kdf hmac b64dec cfg nonce w).1 := by
  rw [performServerHandshakeTr]
  cases hpa : parseAuthMessage w.authLine with
  | error e => simp
  | ok method =>
    dsimp only
    by_cases hm : method ≠ authMethodPassword
    · rw [if_pos hm]
      simp
    · rw [if_neg hm]
      cases hpr : parseResponseMessage b64dec w.responseLine with
      | error e => simp
      | ok response =>
        dsimp only
        cases hta : serverTryAuth kdf hmac cfg nonce response with
        | none => simp
        | some sessionKey =>
          dsimp only
          cases hrd : EncryptedConn.read ⟨w.encWire, [], newEncryptedConnection sessionKey⟩
              256 with
          | error e => simp
          | ok pr =>
            obtain ⟨modeBytes, rest⟩ := pr
            simp

theorem handleSecureTr_no_stream (kdf : KdfFun) (hmac : HmacFun) (b64dec : B64Decode)
    (cfg : SecurityConfig) (nonce : List Nat) (w : ServerWire) :
    Ev.openedStream ∉ (handleSecureTr kdf hmac b64dec cfg nonce w).1 ∧
    Ev.acceptedStream ∉ (handleSecureTr kdf hmac b64dec cfg nonce w).1 :=
  performServerHandshakeTr_no_stream kdf hmac b64dec cfg nonce w

theorem handleSecureTr_authFail (kdf : KdfFun) (hmac : HmacFun) (b64dec : B64Decode)
    (cfg : SecurityConfig) (nonce : List Nat) (w : ServerWire) (response : List Nat)
    (hpa : parseAuthMessage w.authLine = .ok authMethodPassword)
    (hpr : parseResponseMessage b64dec w.responseLine = .ok response)
    (hauth : serverTryAuth kdf hmac cfg nonce response = none) :
    handleSecureTr kdf hmac b64dec cfg nonce w =
      ([Ev.sentHandshake, Ev.sentChallenge, Ev.sentAuthFail], .error "authentication failed") := by
  rw [handleSecureTr, performServerHandshakeTr, hpa]
  simp only [ne_eq, not_true_eq_false, if_neg, hpr, hauth]
  rfl

/-! ## EncryptedConn.Read error cases -/

theorem read_err_hdr (ec : EncryptedConn) (size : Nat)
    (hbuf : ec.readBuf = []) (h4 : ec.conn.length < 4) :
    ec.read size = .error .readShort := by
  rw [EncryptedConn.read]
  rw [if_neg (by simp [hbuf]), if_pos h4]

theorem read_badLength (ec : EncryptedConn) (size : Nat)
    (hbuf : ec.readBuf = [])
    (h4 : ¬ ec.conn.length < 4)
    (hl : beDecode (ec.conn.take 4) = 0 ∨ beDecode (ec.conn.take 4) > 64 * 1024) :
    ec.read size = .error (.badLength (beDecode (ec.conn.take 4))) := by
  rw [EncryptedConn.read]
  rw [if_neg (by simp [hbuf]), if_neg h4]
  simp only []
  rw [if_pos hl]

theorem read_err_body (ec : EncryptedConn) (size : Nat)
    (hbuf : ec.readBuf = [])
    (h4 : ¬ ec.conn.length < 4)
    (hl : ¬ (beDecode (ec.conn.take 4) = 0 ∨ beDecode (ec.conn.take 4) > 64 * 1024))
    (hshort : (ec.conn.drop 4).length < beDecode (ec.conn.take 4)) :
    ec.read size = .error .readShort := by
  rw [EncryptedConn.read]
  rw [if_neg (by simp [hbuf]), if_neg h4]
  simp only []
  rw [if_neg hl, if_pos hshort]

theorem read_err_decrypt (ec : EncryptedConn) (size : Nat) (e : String)
    (hbuf : ec.readBuf = [])
    (h4 : ¬ ec.conn.length < 4)
    (hl : ¬ (beDecode (ec.conn.take 4) = 0 ∨ beDecode (ec.conn.take 4) > 64 * 1024))
    (hshort : ¬ (ec.conn.drop 4).length < beDecode (ec.conn.take 4))
    (hdec : ec.encryptor.decrypt ((ec.conn.drop 4).take (beDecode (ec.conn.take 4))) =
      .error e) :
    ec.read size = .error (.decryptFail e) := by
  rw [EncryptedConn.read]
  rw [if_neg (by simp [hbuf]), if_neg h4]
  simp only []
  rw [if_neg hl, if_neg hshort, hdec]

/-! ## Claim theorems -/

/-- C2 counterexample: the claim says an unrecognized mode token is treated
as pair, but the host parses MODE:hack into the verbatim token hack, which
is not pair. -/
theorem c2_counterexample : parseClientMode "MODE:hack\n" ≠ "pair" := by
  decide

/-- C2 (amended): only a malformed mode message (no MODE: lead or no
newline) defaults to pair; a well-formed message with an unrecognized token
is passed through verbatim (for example MODE:hack parses to hack). In both
cases mode negotiation succeeds, so the connection does not fail. -/
theorem c2_mode_default :
    (∀ s : String, ¬ (goStartsWith s "MODE:" && goContainsChar s '\n') = true →
      parseClientMode s = "pair" ∧ modeNegotiation s = .ok "pair") ∧
    (parseClientMode "MODE:hack\n" = "hack" ∧ modeNegotiation "MODE:hack\n" = .ok "hack") := by
  constructor
  · intro s h
    have hp : parseClientMode s = "pair" := by
      rw [parseClientMode, if_neg h]
    exact ⟨hp, by rw [modeNegotiation, hp]⟩
  · have hp : parseClientMode "MODE:hack\n" = "hack" := by decide
    exact ⟨hp, by rw [modeNegotiation, hp]⟩

/-- C2 witness: a malformed mode message defaults to pair. -/
theorem c2_mode_default_witness :
    ¬ (goStartsWith "garbage" "MODE:" && goContainsChar "garbage" '\n') = true ∧
    parseClientMode "garbage" = "pair" ∧ modeNegotiation "garbage" = .ok "pair" :=
  ⟨by decide, c2_mode_default.1 "garbage" (by decide)⟩

/-- C5: the authentication response is the abstract HMAC of the full nonce
under the key derived (by the abstract KDF with the configured Argon2
parameters) from the password salted with the first 16 nonce bytes; the
session key is the derivation salted with nonce bytes 16..32; nonces
shorter than 16 respectively 32 bytes make the operations fail. -/
theorem c5_kdf_plumbing (kdf : KdfFun) (hmac : HmacFun) (cfg : SecurityConfig)
    (password : String) (nonce : List Nat) :
    (16 ≤ nonce.length →
      generateAuthResponse kdf hmac cfg password nonce =
        .ok (hmac (deriveKey kdf cfg password (nonce.take 16)) nonce)) ∧
    (nonce.length < 16 → ∃ e, generateAuthResponse kdf hmac cfg password nonce = .error e) ∧
    (32 ≤ nonce.length → (deriveKey kdf cfg password ((nonce.drop 16).take 16)).length = 32 →
      deriveSessionKey kdf cfg password nonce =
        .ok (deriveKey kdf cfg password ((nonce.drop 16).take 16))) ∧
    (nonce.length < 32 → ∃ e, deriveSessionKey kdf cfg password nonce = .error e) := by
  refine ⟨?_, ?_, ?_, ?_⟩
  · intro h
    rw [generateAuthResponse, if_neg (by omega)]
  · intro h
    exact ⟨_, by rw [generateAuthResponse, if_pos h]⟩
  · intro h hlen
    rw [deriveSessionKey, if_neg (by omega), goCopy32, hlen]
    rw [List.take_of_length_le (by omega)]
    simp
  · intro h
    exact ⟨_, by rw [deriveSessionKey, if_pos h]⟩

/-- C5 witness: the plumbing evaluated at a 32-byte nonce and at short
nonces, with concrete stand-ins for the abstract primitives. -/
theorem c5_kdf_plumbing_witness :
    (generateAuthResponse kdf0 hmac0 defaultSecurityConfig "pw" (List.replicate 32 0) =
      .ok (hmac0 (deriveKey kdf0 defaultSecurityConfig "pw" ((List.replicate 32 0).take 16))
        (List.replicate 32 0))) ∧
    (∃ e, generateAuthResponse kdf0 hmac0 defaultSecurityConfig "pw" [1, 2, 3] = .error e) ∧
    (deriveSessionKey kdf0 defaultSecurityConfig "pw" (List.replicate 32 0) =
      .ok (deriveKey kdf0 defaultSecurityConfig "pw"
        (((List.replicate 32 0).drop 16).take 16))) ∧
    (∃ e, deriveSessionKey kdf0 defaultSecurityConfig "pw" [1, 2, 3] = .error e) :=
  ⟨(c5_kdf_plumbing kdf0 hmac0 defaultSecurityConfig "pw" (List.replicate 32 0)).1 (by decide),
   (c5_kdf_plumbing kdf0 hmac0 defaultSecurityConfig "pw" [1, 2, 3]).2.1 (by decide),
   (c5_kdf_plumbing kdf0 hmac0 defaultSecurityConfig "pw" (List.replicate 32 0)).2.2.1
      (by decide) (by decide),
   (c5_kdf_plumbing kdf0 hmac0 defaultSecurityConfig "pw" [1, 2, 3]).2.2.2 (by decide)⟩

/-- C6: the claim says Encrypt must fail when the send counter is
exhausted; the code instead always succeeds and silently wraps the uint64
counter, so at the maximal counter value the next state reuses counter 0
and with it the very first record nonce of the connection. -/
theorem c6_counter_wraps (key data : List Nat) :
    EncryptedConnection.encrypt ⟨key, 2 ^ 64 - 1⟩ data =
      (.ok (EncryptedConnection.encryptBytes ⟨key, 2 ^ 64 - 1⟩ data), ⟨key, 0⟩) := by
  have h : (2 ^ 64 - 1 + 1) % 2 ^ 64 = 0 := by norm_num
  rw [EncryptedConnection.encrypt, h]

/-- C7: a plain-protocol client that receives the secure handshake line
fails with no protocol step executed, and a secure client that receives
the plain handshake line fails with no protocol step executed. -/
theorem c7_handshake_mismatch :
    ((clientConnectTr secureHandshakeMsg).1 = [] ∧
      exOk (clientConnectTr secureHandshakeMsg).2 = false) ∧
    (∀ (kdf : KdfFun) (hmac : HmacFun) (b64dec : B64Decode) (cfg : SecurityConfig)
      (sessionName password challengeLine authResultLine : String),
      (performClientHandshakeTr kdf hmac b64dec cfg sessionName password
          ⟨handshakeMsg, challengeLine, authResultLine⟩).1 = [] ∧
      exOk (performClientHandshakeTr kdf hmac b64dec cfg sessionName password
          ⟨handshakeMsg, challengeLine, authResultLine⟩).2 = false) := by
  constructor
  · constructor
    · decide
    · decide
  · intro kdf hmac b64dec cfg sessionName password challengeLine authResultLine
    rw [performClientHandshakeTr]
    dsimp only
    rw [if_pos (by decide : goTrimSpace handshakeMsg ≠ goTrimSpace secureHandshakeMsg)]
    exact ⟨rfl, rfl⟩

/-- C1 (amended): decrypting the encryption of any byte string under the
same session key returns exactly that byte string, for every length
including empty and 64 KiB; the EncryptedConn.Write/Read framing preserves
this only for payloads of at most 65508 bytes (64 KiB minus the 28-byte
record overhead), because Read rejects records longer than 64 KiB. -/
theorem c1_roundtrip (key : List Nat) (c₁ c₂ : Nat) (m : List Nat) :
    (EncryptedConnection.decrypt ⟨key, c₂⟩
        (EncryptedConnection.encryptBytes ⟨key, c₁⟩ m) = .ok m) ∧
    (∀ size, m.length ≤ 65508 → m.length ≤ size →
      EncryptedConn.read ⟨EncryptedConn.writeBytes ⟨[], [], ⟨key, c₁⟩⟩ m, [], ⟨key, c₂⟩⟩ size =
        .ok (m, ⟨[], [], ⟨key, c₂⟩⟩)) :=
  ⟨decrypt_encryptBytes key c₁ c₂ m,
   fun size hm hsz => read_writeBytes key c₁ c₂ m size hm hsz⟩

/-- C1 witness: the framing round trip evaluated at the empty payload. -/
theorem c1_roundtrip_witness :
    ([] : List Nat).length ≤ 65508 ∧ ([] : List Nat).length ≤ 1 ∧
    EncryptedConn.read
        ⟨EncryptedConn.writeBytes ⟨[], [], ⟨List.replicate 32 0, 0⟩⟩ [], [],
          ⟨List.replicate 32 0, 5⟩⟩ 1 =
      .ok ([], ⟨[], [], ⟨List.replicate 32 0, 5⟩⟩) :=
  ⟨by decide, by decide,
   (c1_roundtrip (List.replicate 32 0) 0 5 []).2 1 (by decide) (by decide)⟩

/-- C1 counterexample: at the 64 KiB boundary the claim fails. A 65536-byte
payload produces a 65564-byte record, and EncryptedConn.Read rejects its
length header as a protocol violation instead of round-tripping. -/
theorem c1_counterexample :
    EncryptedConn.read
        ⟨EncryptedConn.writeBytes ⟨[], [], ⟨List.replicate 32 0, 0⟩⟩ (List.replicate 65536 0),
          [], ⟨List.replicate 32 0, 0⟩⟩ 70000 =
      .error (.badLength 65564) := by
  have hE : (EncryptedConnection.encryptBytes ⟨List.replicate 32 0, 0⟩
      (List.replicate 65536 0)).length = 65564 := by
    rw [length_encryptBytes, List.length_replicate]
  have hwire : EncryptedConn.writeBytes ⟨[], [], ⟨List.replicate 32 0, 0⟩⟩
      (List.replicate 65536 0) =
      beEncode 65564 ++ EncryptedConnection.encryptBytes ⟨List.replicate 32 0, 0⟩
        (List.replicate 65536 0) := by
    rw [EncryptedConn.writeBytes]
    dsimp only
    rw [hE]
  have hlen4 : (beEncode 65564).length = 4 := by decide
  have htake : (EncryptedConn.writeBytes ⟨[], [], ⟨List.replicate 32 0, 0⟩⟩
      (List.replicate 65536 0)).take 4 = beEncode 65564 := by
    rw [hwire, show (4 : Nat) = (beEncode 65564).length from hlen4.symm, List.take_left]
  have hbd : beDecode (beEncode 65564) = 65564 := by decide
  have h4 : ¬ (EncryptedConn.writeBytes ⟨[], [], ⟨List.replicate 32 0, 0⟩⟩
      (List.replicate 65536 0)).length < 4 := by
    rw [hwire, List.length_append, hlen4, hE]
    omega
  have hl : beDecode ((EncryptedConn.writeBytes ⟨[], [], ⟨List.replicate 32 0, 0⟩⟩
      (List.replicate 65536 0)).take 4) = 0 ∨
      beDecode ((EncryptedConn.writeBytes ⟨[], [], ⟨List.replicate 32 0, 0⟩⟩
        (List.replicate 65536 0)).take 4) > 64 * 1024 := by
    rw [htake, hbd]
    norm_num
  rw [read_badLength ⟨EncryptedConn.writeBytes ⟨[], [], ⟨List.replicate 32 0, 0⟩⟩
      (List.replicate 65536 0), [], ⟨List.replicate 32 0, 0⟩⟩ 70000 rfl h4 hl]
  rw [htake, hbd]

/-- C3: on a 32-byte host-generated nonce, the hosting side replies
AUTH_OK exactly when some configured candidate password (global first,
then each session-scoped one) makes the recomputed HMAC response equal the
received one; with no matching candidate it replies AUTH_FAIL and the
handshake step returns an error. -/
theorem c3_auth_accept_iff (kdf : KdfFun) (hmac : HmacFun) (cfg : SecurityConfig)
    (nonce response : List Nat) (h32 : nonce.length = 32) :
    ((serverAuthReply kdf hmac cfg nonce response).1 = "AUTH_OK" ↔
      ∃ pw ∈ authCandidates cfg, verifyAuthResponse kdf hmac cfg pw nonce response = true) ∧
    ((¬ ∃ pw ∈ authCandidates cfg,
        verifyAuthResponse kdf hmac cfg pw nonce response = true) →
      (serverAuthReply kdf hmac cfg nonce response).1 = "AUTH_FAIL" ∧
      exOk (serverAuthReply kdf hmac cfg nonce response).2 = false) := by
  have hiff := serverTryAuth_isSome_iff kdf hmac cfg nonce response (by omega)
  cases hta : serverTryAuth kdf hmac cfg nonce response with
  | none =>
    rw [hta] at hiff
    simp only [Option.isSome_none, Bool.false_eq_true, false_iff] at hiff
    refine ⟨?_, ?_⟩
    · simp only [serverAuthReply, hta]
      constructor
      · intro habs
        exact absurd habs (by decide)
      · intro hex
        exact absurd hex hiff
    · intro _hne
      simp only [serverAuthReply, hta]
      exact ⟨trivial, rfl⟩
  | some sessionKey =>
    rw [hta] at hiff
    simp only [Option.isSome_some, true_iff] at hiff
    refine ⟨?_, ?_⟩
    · simp only [serverAuthReply, hta]
      exact iff_of_true trivial hiff
    · intro hnex
      exact absurd hiff hnex

/-- C3 witness: with no configured password, every response is refused
with AUTH_FAIL and a handshake error. -/
theorem c3_auth_accept_iff_witness :
    (List.replicate 32 (0 : Nat)).length = 32 ∧
    (¬ ∃ pw ∈ authCandidates defaultSecurityConfig,
      verifyAuthResponse kdf0 hmac0 defaultSecurityConfig pw (List.replicate 32 0) [] = true) ∧
    (serverAuthReply kdf0 hmac0 defaultSecurityConfig (List.replicate 32 0) []).1 =
      "AUTH_FAIL" ∧
    exOk (serverAuthReply kdf0 hmac0 defaultSecurityConfig (List.replicate 32 0) []).2 =
      false := by
  have hnex : ¬ ∃ pw ∈ authCandidates defaultSecurityConfig,
      verifyAuthResponse kdf0 hmac0 defaultSecurityConfig pw (List.replicate 32 0) [] = true := by
    simp [authCandidates, getPasswordForSession, defaultSecurityConfig]
  have h := (c3_auth_accept_iff kdf0 hmac0 defaultSecurityConfig (List.replicate 32 0) []
    (by decide)).2 hnex
  exact ⟨by decide, hnex, h.1, h.2⟩

/-- C4: EncryptedConn.Read fails, delivering no data, whenever (while its
internal buffer is empty) the wire ends before a full 4-byte header, the
decoded length is 0 or above 64 KiB, the record body is truncated, or AEAD
decryption of the record fails. -/
theorem c4_read_rejects (key : List Nat) (c : Nat) (wire : List Nat) (size : Nat)
    (h :
      wire.length < 4 ∨
      (¬ wire.length < 4 ∧
        (beDecode (wire.take 4) = 0 ∨ beDecode (wire.take 4) > 64 * 1024)) ∨
      (¬ wire.length < 4 ∧
        ¬ (beDecode (wire.take 4) = 0 ∨ beDecode (wire.take 4) > 64 * 1024) ∧
        (wire.drop 4).length < beDecode (wire.take 4)) ∨
      (¬ wire.length < 4 ∧
        ¬ (beDecode (wire.take 4) = 0 ∨ beDecode (wire.take 4) > 64 * 1024) ∧
        ¬ (wire.drop 4).length < beDecode (wire.take 4) ∧
        ∃ e, EncryptedConnection.decrypt ⟨key, c⟩
          ((wire.drop 4).take (beDecode (wire.take 4))) = .error e)) :
    ∃ err, EncryptedConn.read ⟨wire, [], ⟨key, c⟩⟩ size = .error err := by
  rcases h with h1 | ⟨h4, hl⟩ | ⟨h4, hl, hshort⟩ | ⟨h4, hl, hshort, e, hdec⟩
  · exact ⟨_, read_err_hdr ⟨wire, [], ⟨key, c⟩⟩ size rfl h1⟩
  · exact ⟨_, read_badLength ⟨wire, [], ⟨key, c⟩⟩ size rfl h4 hl⟩
  · exact ⟨_, read_err_body ⟨wire, [], ⟨key, c⟩⟩ size rfl h4 hl hshort⟩
  · exact ⟨_, read_err_decrypt ⟨wire, [], ⟨key, c⟩⟩ size e rfl h4 hl hshort hdec⟩

/-- C4 witness: an empty wire has no complete header, so Read fails. -/
theorem c4_read_rejects_witness :
    (([] : List Nat).length < 4) ∧
    ∃ err, EncryptedConn.read ⟨[], [], ⟨[], 0⟩⟩ 10 = .error err :=
  ⟨by decide, c4_read_rejects [] 0 [] 10 (Or.inl (by decide))⟩

/-- C9: the secure connection setup never opens or accepts a multiplexer
stream during (or, in this source, after) the handshake: the client trace
and the server trace contain no stream event, the client returns an error
whenever the received authentication result is not AUTH_OK, and a server
that fails to authenticate the response stops at AUTH_FAIL with an error
and no stream event. -/
theorem c9_no_stream_before_auth :
    (∀ (kdf : KdfFun) (hmac : HmacFun) (b64dec : B64Decode) (cfg : SecurityConfig)
      (sessionName password : String) (w : ClientWire),
      Ev.openedStream ∉ (secureClientConnectTr kdf hmac b64dec cfg sessionName password w).1 ∧
      Ev.acceptedStream ∉
        (secureClientConnectTr kdf hmac b64dec cfg sessionName password w).1 ∧
      (goTrimSpace w.authResultLine ≠ "AUTH_OK" →
        exOk (secureClientConnectTr kdf hmac b64dec cfg sessionName password w).2 = false)) ∧
    (∀ (kdf : KdfFun) (hmac : HmacFun) (b64dec : B64Decode) (cfg : SecurityConfig)
      (nonce : List Nat) (w : ServerWire) (response : List Nat),
      Ev.openedStream ∉ (handleSecureTr kdf hmac b64dec cfg nonce w).1 ∧
      Ev.acceptedStream ∉ (handleSecureTr kdf hmac b64dec cfg nonce w).1 ∧
      (parseAuthMessage w.authLine = .ok authMethodPassword →
        parseResponseMessage b64dec w.responseLine = .ok response →
        serverTryAuth kdf hmac cfg nonce response = none →
        handleSecureTr kdf hmac b64dec cfg nonce w =
          ([Ev.sentHandshake, Ev.sentChallenge, Ev.sentAuthFail],
            .error "authentication failed"))) := by
  constructor
  · intro kdf hmac b64dec cfg sessionName password w
    exact ⟨(secureClientConnectTr_no_stream kdf hmac b64dec cfg sessionName password w).1,
      (secureClientConnectTr_no_stream kdf hmac b64dec cfg sessionName password w).2,
      fun _ => secureClientConnectTr_never_ok kdf hmac b64dec cfg sessionName password w⟩
  · intro kdf hmac b64dec cfg nonce w response
    exact ⟨(handleSecureTr_no_stream kdf hmac b64dec cfg nonce w).1,
      (handleSecureTr_no_stream kdf hmac b64dec cfg nonce w).2,
      fun hpa hpr hta => handleSecureTr_authFail kdf hmac b64dec cfg nonce w response
        hpa hpr hta⟩

/-- C9 witness: a wrong-password scenario on both sides, with concrete
stand-ins for the abstract primitives. -/
theorem c9_no_stream_before_auth_witness :
    (goTrimSpace "AUTH_FAIL" ≠ "AUTH_OK" ∧
      exOk (secureClientConnectTr kdf0 hmac0 b64dec0 defaultSecurityConfig "s" "pw"
        ⟨secureHandshakeMsg, "CHALLENGE:", "AUTH_FAIL"⟩).2 = false) ∧
    (parseAuthMessage "AUTH:password" = .ok authMethodPassword ∧
      parseResponseMessage b64dec0 "RESPONSE:" = .ok [] ∧
      serverTryAuth kdf0 hmac0 defaultSecurityConfig (List.replicate 32 0) [] = none ∧
      handleSecureTr kdf0 hmac0 b64dec0 defaultSecurityConfig (List.replicate 32 0)
          ⟨"AUTH:password", "RESPONSE:", []⟩ =
        ([Ev.sentHandshake, Ev.sentChallenge, Ev.sentAuthFail],
          .error "authentication failed")) := by
  have hpa : parseAuthMessage "AUTH:password" = .ok authMethodPassword := rfl
  have hpr : parseResponseMessage b64dec0 "RESPONSE:" = .ok [] := rfl
  have hta : serverTryAuth kdf0 hmac0 defaultSecurityConfig (List.replicate 32 0) [] = none :=
    rfl
  refine ⟨⟨by decide, ?_⟩, hpa, hpr, hta, ?_⟩
  · exact (c9_no_stream_before_auth.1 kdf0 hmac0 b64dec0 defaultSecurityConfig "s" "pw"
      ⟨secureHandshakeMsg, "CHALLENGE:", "AUTH_FAIL"⟩).2.2 (by decide)
  · exact (c9_no_stream_before_auth.2 kdf0 hmac0 b64dec0 defaultSecurityConfig
      (List.replicate 32 0) ⟨"AUTH:password", "RESPONSE:", []⟩ []).2.2 hpa hpr hta

/-- C10: data decrypted by EncryptedConn.Read is never lost or reordered:
while the internal buffer is nonempty a Read drains it without touching
the wire, and over any sequence of successful Reads starting from an empty
buffer, the delivered bytes followed by the final buffer contents and the
payloads still on the wire are exactly the decrypted record payloads in
arrival order. -/
theorem c10_read_buffering :
    (∀ (ec : EncryptedConn) (size : Nat), ec.readBuf ≠ [] →
      ec.read size =
        .ok (ec.readBuf.take size, { ec with readBuf := ec.readBuf.drop size })) ∧
    (∀ (sizes : List Nat) (ec : EncryptedConn) (out : List Nat) (ec₃ : EncryptedConn),
      ec.readBuf = [] → runReads ec sizes = .ok (out, ec₃) →
      out ++ ec₃.readBuf ++ (wireRecords ec₃.encryptor.cipherKey ec₃.conn).flatten =
        (wireRecords ec.encryptor.cipherKey ec.conn).flatten) := by
  constructor
  · exact read_buffered
  · intro sizes ec out ec₃ hb h
    have hc := (runReads_conserve sizes ec out ec₃ h).1
    rwa [hb, List.nil_append] at hc

/-- C10 witness: a buffered byte is delivered without consuming the wire,
and the conservation equation evaluated on the empty read sequence. -/
theorem c10_read_buffering_witness :
    (([5] : List Nat) ≠ [] ∧
      EncryptedConn.read ⟨[7], [5], ⟨[], 0⟩⟩ 1 =
        .ok (([5] : List Nat).take 1, ⟨[7], ([5] : List Nat).drop 1, ⟨[], 0⟩⟩)) ∧
    (runReads ⟨[], [], ⟨[], 0⟩⟩ [] = .ok ([], ⟨[], [], ⟨[], 0⟩⟩) ∧
      ([] : List Nat) ++ ([] : List Nat) ++ (wireRecords [] []).flatten =
        (wireRecords [] []).flatten) := by
  refine ⟨⟨by decide, ?_⟩, rfl, ?_⟩
  · exact c10_read_buffering.1 ⟨[7], [5], ⟨[], 0⟩⟩ 1 (by decide)
  · exact c10_read_buffering.2 [] ⟨[], [], ⟨[], 0⟩⟩ [] ⟨[], [], ⟨[], 0⟩⟩ rfl rfl
